import Mathlib

/-!
Shallow embedding of the continuum-cp-swap program
(src/programs/continuum-cp-swap/src/) and verification of its
natural-language specification.

Conventions of the embedding:
* `Pubkey` (a 32-byte address) is modelled as `Nat`; only equality of
  addresses matters to the verified properties.
* `u64` values are `Nat`; the one arithmetic operation of the program that
  can overflow (`current_sequence + 1`, and the balance subtraction
  `post - start`) is modelled checked: an overflow aborts the whole call
  with `ProgError.mathOverflow`, matching the Rust overflow check and the
  host's all-or-nothing call semantics.
* Each Anchor instruction becomes a pure function from its resolved
  accounts and environment (clock value, token balances, outcome of the
  forwarded CPI call) to `Except ProgError result`.  An `Except.error`
  result models a transaction abort: no account is mutated.
* Anchor account `constraint` clauses are checked in the order they are
  written in the `#[derive(Accounts)]` struct, before the handler body
  runs.  Host-level account resolution (that the passed account really
  lives at the derived PDA address) is left to the host; the PDA seed
  values an instruction derives are modelled explicitly where a claim is
  about them (the storage key computed by `submit_order`).
* The forwarded CPI call (`invoke_signed`) is an environment parameter:
  either it fails (aborting the call), or it succeeds and yields the
  post-call balance of the destination token account.
-/

namespace Continuum

/-- Account addresses (Solana `Pubkey`), modelled by `Nat`. -/
abbrev Pubkey := Nat

/-- `u64` overflow bound: values live in `[0, 2^64)`. -/
def U64_LIMIT : Nat := 2 ^ 64

/-- Order lifecycle status, from `state.rs` (`enum OrderStatus`). -/
inductive OrderStatus where
  | Pending
  | Executed
  | Cancelled
  | Failed
deriving DecidableEq

/-- Global sequencer state, from `state.rs` (`struct FifoState`). -/
structure FifoState where
  current_sequence : Nat
  admin : Pubkey
  emergency_pause : Bool
deriving DecidableEq

/-- Pool registration record, from `state.rs` (`struct CpSwapPoolRegistry`). -/
structure CpSwapPoolRegistry where
  pool_id : Pubkey
  token_0 : Pubkey
  token_1 : Pubkey
  continuum_authority : Pubkey
  created_at : Int
  is_active : Bool
deriving DecidableEq

/-- Per-order record, from `state.rs` (`struct OrderState`). -/
structure OrderState where
  sequence : Nat
  user : Pubkey
  pool_id : Pubkey
  amount_in : Nat
  min_amount_out : Nat
  is_base_input : Bool
  status : OrderStatus
  submitted_at : Int
  executed_at : Option Int
deriving DecidableEq

/-- Error codes, from `errors.rs` (`enum ContinuumError`). -/
inductive ContinuumError where
  | InvalidSequence
  | OrderAlreadyExecuted
  | OrderNotFound
  | Unauthorized
  | PoolNotRegistered
  | PoolAlreadyRegistered
  | EmergencyPause
  | InvalidPoolConfig
  | SlippageExceeded
  | InvalidOrderStatus
deriving DecidableEq

/-- Result of a failed call.  `continuum e` is a custom program error with
its declared code; `constraintViolation` is a generic Anchor account
constraint failure without a custom code; `cpiFailed` is a propagated
failure of the forwarded call; `mathOverflow` is an aborted checked
arithmetic operation. -/
inductive ProgError where
  | continuum (e : ContinuumError)
  | constraintViolation
  | cpiFailed
  | mathOverflow
deriving DecidableEq

/-- `OrderSubmitted` event, from `state.rs`. -/
structure OrderSubmitted where
  sequence : Nat
  user : Pubkey
  pool_id : Pubkey
  amount_in : Nat
  is_base_input : Bool
deriving DecidableEq

/-- `OrderExecuted` event, from `state.rs`. -/
structure OrderExecuted where
  sequence : Nat
  user : Pubkey
  amount_out : Nat
  executor : Pubkey
deriving DecidableEq

/-- `OrderCancelled` event, from `state.rs`. -/
structure OrderCancelled where
  sequence : Nat
  user : Pubkey
deriving DecidableEq

/-- `SwapExecuted` event, from `swap_immediate.rs`. -/
structure SwapExecuted where
  sequence : Nat
  pool_id : Pubkey
  amount_in : Nat
  is_base_input : Bool
deriving DecidableEq

/-- Decidable equality of `Except` results, so concrete runs can be
checked with `decide`. -/
instance {ε α : Type} [DecidableEq ε] [DecidableEq α] : DecidableEq (Except ε α) := fun x y =>
  match x, y with
  | .ok a, .ok b =>
      if h : a = b then isTrue (by rw [h]) else
        isFalse (fun hc => h (by cases hc; rfl))
  | .ok _, .error _ => isFalse (fun hc => by cases hc)
  | .error _, .ok _ => isFalse (fun hc => by cases hc)
  | .error e, .error f =>
      if h : e = f then isTrue (by rw [h]) else
        isFalse (fun hc => h (by cases hc; rfl))

/-- Whether a call succeeded. -/
def isOk {ε α : Type} : Except ε α → Bool
  | .ok _ => true
  | .error _ => false

/-- The handler of the `initialize` instruction (`initialize.rs`): the
one-time creation of the global `FifoState` with `current_sequence = 0`,
the calling signer as admin, and the pause flag clear.  The Anchor `init`
attribute (creation fails if the account already exists) is host-level. -/
def initFifoState (admin : Pubkey) : FifoState :=
  { current_sequence := 0, admin := admin, emergency_pause := false }

/-- Output of a successful `submit_order` call: the updated `FifoState`,
the PDA storage key of the created order account
(`[b"order", user, fifo_state.current_sequence.to_le_bytes()]`, read
before the handler increments the counter), the created `OrderState`,
and the emitted event. -/
structure SubmitOut where
  fifo : FifoState
  key : Pubkey × Nat
  order : OrderState
  event : OrderSubmitted
deriving DecidableEq

/-- The `submit_order` instruction (`submit_order.rs`): Anchor constraints
`!fifo_state.emergency_pause` (else `EmergencyPause`) and
`pool_registry.is_active` (else `PoolNotRegistered`); the order account is
created at PDA key `(user, fifo_state.current_sequence)` — the counter
value BEFORE the increment, as in the source's `seeds` attribute — then
the handler sets `new_sequence = current_sequence + 1` (checked add),
stores it in both the counter and the order's `sequence` field, fills the
remaining order fields, and emits `OrderSubmitted`. -/
def submit_order (fifo : FifoState) (pool_registry : CpSwapPoolRegistry)
    (user : Pubkey) (pool_id : Pubkey) (amount_in min_amount_out : Nat)
    (is_base_input : Bool) (now : Int) : Except ProgError SubmitOut :=
  if fifo.emergency_pause then .error (.continuum .EmergencyPause)
  else if ¬ pool_registry.is_active then .error (.continuum .PoolNotRegistered)
  else
    let pda_sequence := fifo.current_sequence
    if fifo.current_sequence + 1 < U64_LIMIT then
      let new_sequence := fifo.current_sequence + 1
      .ok { fifo := { fifo with current_sequence := new_sequence },
            key := (user, pda_sequence),
            order := { sequence := new_sequence, user := user, pool_id := pool_id,
                       amount_in := amount_in, min_amount_out := min_amount_out,
                       is_base_input := is_base_input, status := .Pending,
                       submitted_at := now, executed_at := none },
            event := { sequence := new_sequence, user := user, pool_id := pool_id,
                       amount_in := amount_in, is_base_input := is_base_input } }
    else .error .mathOverflow

/-- The `submit_order_simple` instruction (`submit_order_simple.rs`):
same pause/activity constraints; the handler only advances the counter and
emits `OrderSubmitted` — no order account is created
(`min_amount_out` is accepted and ignored, as in the source). -/
def submit_order_simple (fifo : FifoState) (pool_registry : CpSwapPoolRegistry)
    (user : Pubkey) (pool_id : Pubkey) (amount_in _min_amount_out : Nat)
    (is_base_input : Bool) : Except ProgError (FifoState × OrderSubmitted) :=
  if fifo.emergency_pause then .error (.continuum .EmergencyPause)
  else if ¬ pool_registry.is_active then .error (.continuum .PoolNotRegistered)
  else if fifo.current_sequence + 1 < U64_LIMIT then
    let sequence := fifo.current_sequence + 1
    .ok ({ fifo with current_sequence := sequence },
         { sequence := sequence, user := user, pool_id := pool_id,
           amount_in := amount_in, is_base_input := is_base_input })
  else .error .mathOverflow

/-- Little-endian byte encoding of a `u64` value
(Rust `u64::to_le_bytes`): eight bytes, least significant first. -/
def le64 (n : Nat) : List Nat :=
  [n % 256, n / 256 % 256, n / 256 ^ 2 % 256, n / 256 ^ 3 % 256,
   n / 256 ^ 4 % 256, n / 256 ^ 5 % 256, n / 256 ^ 6 % 256, n / 256 ^ 7 % 256]

/-- Little-endian decoding of a byte list, least significant byte first. -/
def leDecode (bs : List Nat) : Nat :=
  bs.foldr (fun b acc => b + 256 * acc) 0

/-- The forwarded-call payload built by `execute_order`
(`execute_order.rs`, the `ix_data` block): the fixed 8-byte
`swap_base_input` discriminator followed by `amount_in` and
`min_amount_out` in LE64 when `is_base_input`, otherwise the fixed 8-byte
`swap_base_output` discriminator followed by `min_amount_out`
(as `max_amount_in`) and `amount_in` (as `amount_out`) in LE64. -/
def execute_order_ix_data (is_base_input : Bool) (amount_in min_amount_out : Nat) :
    List Nat :=
  if is_base_input then
    [143, 190, 90, 218, 196, 30, 51, 222] ++ le64 amount_in ++ le64 min_amount_out
  else
    [55, 217, 98, 86, 163, 74, 180, 173] ++ le64 min_amount_out ++ le64 amount_in

/-- The forwarded-call payload built by `swap_immediate`
(`swap_immediate.rs`, the `ix_data` block); textually the same
construction as in `execute_order.rs`. -/
def swap_immediate_ix_data (is_base_input : Bool) (amount_in min_amount_out : Nat) :
    List Nat :=
  if is_base_input then
    [143, 190, 90, 218, 196, 30, 51, 222] ++ le64 amount_in ++ le64 min_amount_out
  else
    [55, 217, 98, 86, 163, 74, 180, 173] ++ le64 min_amount_out ++ le64 amount_in

/-- The `execute_order` instruction (`execute_order.rs`).  Anchor
constraints in source order: `order_state.sequence == expected_sequence`
(else `InvalidSequence`), `order_state.status == OrderStatus::Pending`
(else `InvalidOrderStatus`), `user_source.owner == order_state.user` and
`user_destination.owner == order_state.user` (generic constraint errors).
The handler records the destination balance, issues the forwarded call
(environment parameter `cpi`: `none` = CPI failure aborting the call,
`some post` = success with post-call destination balance), then marks the
order `Executed` with `executed_at = now`, computes
`amount_out = post - start` (checked `u64` subtraction), and emits
`OrderExecuted`.  The `fifo_state` account is read-only in this
instruction and no field of it is used. -/
def execute_order (order : OrderState) (expected_sequence : Nat)
    (_pool_registry : CpSwapPoolRegistry) (executor : Pubkey)
    (user_source_owner user_destination_owner : Pubkey)
    (destination_balance : Nat) (cpi : Option Nat) (now : Int) :
    Except ProgError (OrderState × Nat × OrderExecuted) :=
  if order.sequence = expected_sequence then
    if order.status = .Pending then
      if user_source_owner = order.user then
        if user_destination_owner = order.user then
          match cpi with
          | none => .error .cpiFailed
          | some post =>
            if post < destination_balance then .error .mathOverflow
            else
              let amount_out := post - destination_balance
              .ok ({ order with status := .Executed, executed_at := some now },
                   amount_out,
                   { sequence := order.sequence, user := order.user,
                     amount_out := amount_out, executor := executor })
        else .error .constraintViolation
      else .error .constraintViolation
    else .error (.continuum .InvalidOrderStatus)
  else .error (.continuum .InvalidSequence)

/-- The order record as stored after an `execute_order` call: updated on
success, untouched when the call aborts. -/
def orderAfterExecute (order : OrderState) (expected_sequence : Nat)
    (pool_registry : CpSwapPoolRegistry) (executor : Pubkey)
    (user_source_owner user_destination_owner : Pubkey)
    (destination_balance : Nat) (cpi : Option Nat) (now : Int) : OrderState :=
  match execute_order order expected_sequence pool_registry executor
      user_source_owner user_destination_owner destination_balance cpi now with
  | .ok (o, _, _) => o
  | .error _ => order

/-- The `cancel_order` instruction (`cancel_order.rs`).  Anchor
constraints in source order: `order_state.status == OrderStatus::Pending`
(else `InvalidOrderStatus`), then `order_state.user == user.key()`
(else `Unauthorized`).  The handler sets `status = Cancelled`,
`executed_at = now` (the finalization timestamp) and emits
`OrderCancelled{sequence, user}`. -/
def cancel_order (order : OrderState) (user : Pubkey) (now : Int) :
    Except ProgError (OrderState × OrderCancelled) :=
  if order.status = .Pending then
    if order.user = user then
      .ok ({ order with status := .Cancelled, executed_at := some now },
           { sequence := order.sequence, user := user })
    else .error (.continuum .Unauthorized)
  else .error (.continuum .InvalidOrderStatus)

/-- The order record as stored after a `cancel_order` call. -/
def orderAfterCancel (order : OrderState) (user : Pubkey) (now : Int) : OrderState :=
  match cancel_order order user now with
  | .ok (o, _) => o
  | .error _ => order

/-- The `swap_immediate` instruction (`swap_immediate.rs`).  Its accounts
struct contains no `Signer` at all — no caller identity reaches the
handler, so the embedding takes none.  Constraints:
`!fifo_state.emergency_pause` (else `EmergencyPause`),
`pool_registry.is_active` (else `PoolNotRegistered`).  The handler
advances the counter (checked add), builds the payload, issues the
forwarded call under the derived pool authority (`cpi_ok` is the
environment outcome), and emits `SwapExecuted`. -/
def swap_immediate (fifo : FifoState) (pool_registry : CpSwapPoolRegistry)
    (pool_id : Pubkey) (amount_in min_amount_out : Nat) (is_base_input : Bool)
    (cpi_ok : Bool) : Except ProgError (FifoState × List Nat × SwapExecuted) :=
  if fifo.emergency_pause then .error (.continuum .EmergencyPause)
  else if ¬ pool_registry.is_active then .error (.continuum .PoolNotRegistered)
  else if fifo.current_sequence + 1 < U64_LIMIT then
    let sequence := fifo.current_sequence + 1
    let ix_data := swap_immediate_ix_data is_base_input amount_in min_amount_out
    if cpi_ok then
      .ok ({ fifo with current_sequence := sequence }, ix_data,
           { sequence := sequence, pool_id := pool_id,
             amount_in := amount_in, is_base_input := is_base_input })
    else .error .cpiFailed
  else .error .mathOverflow

/-- The `execute_order_simple` instruction (`execute_order_simple.rs`).
Constraints: `user_source.owner == user.key()` and
`user_destination.owner == user.key()`.  The handler builds the payload
and issues the forwarded call; it never reads the destination balance —
the environment parameters `destination_balance` (pre-call) and `cpi`
(post-call balance on success) are there, but the handler ignores the
balances and emits `OrderExecuted` with the hard-coded placeholder
`amount_out = 0` (source comment: "TODO: Extract from return data"). -/
def execute_order_simple (sequence : Nat) (amount_in min_amount_out : Nat)
    (is_base_input : Bool) (user executor : Pubkey)
    (user_source_owner user_destination_owner : Pubkey)
    (_destination_balance : Nat) (cpi : Option Nat) :
    Except ProgError (List Nat × OrderExecuted) :=
  if user_source_owner = user then
    if user_destination_owner = user then
      match cpi with
      | none => .error .cpiFailed
      | some _post =>
        .ok (execute_order_ix_data is_base_input amount_in min_amount_out,
             { sequence := sequence, user := user, amount_out := 0,
               executor := executor })
    else .error .constraintViolation
  else .error .constraintViolation

/-- The `FifoState` as used by `manage_relayers.rs`: that file reads and
writes a field `authorized_relayers` that `state.rs` does not declare.
Modelled from the spec: the sequencer state carries an
"ordered set of identity" of authorized executors; the concrete container
is a vector, matching the `Vec` operations (`contains`, `push`, `retain`)
the handlers in `manage_relayers.rs` perform on it. -/
structure RelayerFifoState where
  current_sequence : Nat
  admin : Pubkey
  emergency_pause : Bool
  authorized_relayers : List Pubkey
deriving DecidableEq

/-- The `add_relayer` instruction (`manage_relayers.rs`).  Account
constraint: `fifo_state.admin == admin.key()` (else `Unauthorized`).
Handler: if the relayer is already in `authorized_relayers`, fail with
`Unauthorized`; otherwise push it at the end. -/
def add_relayer (st : RelayerFifoState) (admin new_relayer : Pubkey) :
    Except ProgError RelayerFifoState :=
  if st.admin = admin then
    if new_relayer ∈ st.authorized_relayers then .error (.continuum .Unauthorized)
    else .ok { st with authorized_relayers := st.authorized_relayers ++ [new_relayer] }
  else .error (.continuum .Unauthorized)

/-- The `remove_relayer` instruction (`manage_relayers.rs`).  Account
constraint: `fifo_state.admin == admin.key()` (else `Unauthorized`).
Handler: `retain(|&r| r != relayer_to_remove)` — keep every entry
different from the removed one; no error if absent. -/
def remove_relayer (st : RelayerFifoState) (admin relayer_to_remove : Pubkey) :
    Except ProgError RelayerFifoState :=
  if st.admin = admin then
    .ok { st with authorized_relayers :=
            st.authorized_relayers.filter (fun r => r ≠ relayer_to_remove) }
  else .error (.continuum .Unauthorized)

/-- Arguments of one `submit_order` call, for reasoning about runs of
successive submissions. -/
structure SubmitReq where
  pool : CpSwapPoolRegistry
  user : Pubkey
  pool_id : Pubkey
  amount_in : Nat
  min_amount_out : Nat
  is_base_input : Bool
  now : Int
deriving DecidableEq

/-- Run a list of `submit_order` calls in order; `none` as soon as any
call fails, otherwise the final `FifoState` together with the list of
created orders. -/
def runSubmits : FifoState → List SubmitReq → Option (FifoState × List OrderState)
  | f, [] => some (f, [])
  | f, r :: rs =>
    match submit_order f r.pool r.user r.pool_id r.amount_in r.min_amount_out
        r.is_base_input r.now with
    | .ok out =>
      match runSubmits out.fifo rs with
      | some (f', os) => some (f', out.order :: os)
      | none => none
    | .error _ => none

/-- One call of any instruction of the program that can touch the global
`FifoState`, with all its non-state arguments.  `executeOrder` receives
the `fifo_state` account read-only (no `mut` in `ExecuteOrder`) and
`cancelOrder` does not receive it at all, so both leave it unchanged. -/
inductive Op where
  | submit (pool : CpSwapPoolRegistry) (user pool_id amount_in min_amount_out : Nat)
      (is_base_input : Bool) (now : Int)
  | submitSimple (pool : CpSwapPoolRegistry) (user pool_id amount_in min_amount_out : Nat)
      (is_base_input : Bool)
  | swapImmediate (pool : CpSwapPoolRegistry) (pool_id amount_in min_amount_out : Nat)
      (is_base_input : Bool) (cpi_ok : Bool)
  | executeOrder (order : OrderState) (expected : Nat) (pool : CpSwapPoolRegistry)
      (executor uso udo bal : Nat) (cpi : Option Nat) (now : Int)
  | cancelOrder (order : OrderState) (caller : Nat) (now : Int)

/-- Apply one instruction call to the global `FifoState`, returning the
state it leaves behind on success. -/
def applyOp (fifo : FifoState) : Op → Except ProgError FifoState
  | .submit pool user pid a m b now =>
    (submit_order fifo pool user pid a m b now).map (·.fifo)
  | .submitSimple pool user pid a m b =>
    (submit_order_simple fifo pool user pid a m b).map (·.1)
  | .swapImmediate pool pid a m b c =>
    (swap_immediate fifo pool pid a m b c).map (·.1)
  | .executeOrder o e p ex uso udo bal cpi now =>
    (execute_order o e p ex uso udo bal cpi now).map (fun _ => fifo)
  | .cancelOrder o c now =>
    (cancel_order o c now).map (fun _ => fifo)

/-- A successful `submit_order` call advances the counter by exactly one,
keys the new account by the pre-increment counter value, and creates a
`Pending` order carrying the post-increment value. -/
theorem submit_order_ok_spec {fifo : FifoState} {pool : CpSwapPoolRegistry}
    {user pid : Pubkey} {a m : Nat} {b : Bool} {now : Int} {out : SubmitOut}
    (h : submit_order fifo pool user pid a m b now = .ok out) :
    out.fifo = { fifo with current_sequence := fifo.current_sequence + 1 } ∧
    out.key = (user, fifo.current_sequence) ∧
    out.order = { sequence := fifo.current_sequence + 1, user := user, pool_id := pid,
                  amount_in := a, min_amount_out := m, is_base_input := b,
                  status := .Pending, submitted_at := now, executed_at := none } ∧
    out.event = { sequence := fifo.current_sequence + 1, user := user, pool_id := pid,
                  amount_in := a, is_base_input := b } := by
  unfold submit_order at h
  split at h
  · exact absurd h (by simp)
  split at h
  · exact absurd h (by simp)
  split at h
  · cases h
    exact ⟨rfl, rfl, rfl, rfl⟩
  · exact absurd h (by simp)

/-- A successful `submit_order_simple` call advances the counter by
exactly one. -/
theorem submit_order_simple_ok_seq {fifo : FifoState} {pool : CpSwapPoolRegistry}
    {user pid : Pubkey} {a m : Nat} {b : Bool} {out : FifoState × OrderSubmitted}
    (h : submit_order_simple fifo pool user pid a m b = .ok out) :
    out.1.current_sequence = fifo.current_sequence + 1 := by
  unfold submit_order_simple at h
  split at h
  · exact absurd h (by simp)
  split at h
  · exact absurd h (by simp)
  split at h
  · cases h; rfl
  · exact absurd h (by simp)

/-- A successful `swap_immediate` call advances the counter by exactly
one. -/
theorem swap_immediate_ok_seq {fifo : FifoState} {pool : CpSwapPoolRegistry}
    {pid : Pubkey} {a m : Nat} {b c : Bool} {out : FifoState × List Nat × SwapExecuted}
    (h : swap_immediate fifo pool pid a m b c = .ok out) :
    out.1.current_sequence = fifo.current_sequence + 1 := by
  unfold swap_immediate at h
  split at h
  · exact absurd h (by simp)
  split at h
  · exact absurd h (by simp)
  split at h
  · split at h
    · cases h; rfl
    · exact absurd h (by simp)
  · exact absurd h (by simp)

/-- No instruction of the program ever decreases `current_sequence`. -/
theorem applyOp_seq_mono {fifo : FifoState} {op : Op} {f' : FifoState}
    (h : applyOp fifo op = .ok f') :
    fifo.current_sequence ≤ f'.current_sequence := by
  cases op with
  | submit pool user pid a m b now =>
    simp only [applyOp, Except.map] at h
    cases hs : submit_order fifo pool user pid a m b now with
    | ok out =>
      rw [hs] at h; cases h
      rw [(submit_order_ok_spec hs).1]
      exact Nat.le_succ _
    | error e => rw [hs] at h; cases h
  | submitSimple pool user pid a m b =>
    simp only [applyOp, Except.map] at h
    cases hs : submit_order_simple fifo pool user pid a m b with
    | ok out =>
      rw [hs] at h; cases h
      rw [submit_order_simple_ok_seq hs]
      exact Nat.le_succ _
    | error e => rw [hs] at h; cases h
  | swapImmediate pool pid a m b c =>
    simp only [applyOp, Except.map] at h
    cases hs : swap_immediate fifo pool pid a m b c with
    | ok out =>
      rw [hs] at h; cases h
      rw [swap_immediate_ok_seq hs]
      exact Nat.le_succ _
    | error e => rw [hs] at h; cases h
  | executeOrder o e p ex uso udo bal cpi now =>
    simp only [applyOp, Except.map] at h
    cases hs : execute_order o e p ex uso udo bal cpi now with
    | ok out => rw [hs] at h; cases h; exact Nat.le_refl _
    | error err => rw [hs] at h; cases h
  | cancelOrder o c now =>
    simp only [applyOp, Except.map] at h
    cases hs : cancel_order o c now with
    | ok out => rw [hs] at h; cases h; exact Nat.le_refl _
    | error err => rw [hs] at h; cases h

/-- Characterization of a successful run of submissions: starting from
counter value `s`, `N` successful submissions end with counter `s + N`,
produce `N` orders, and the `i`-th created order (0-based `i`) carries
sequence `s + i + 1`. -/
theorem runSubmits_spec (reqs : List SubmitReq) :
    ∀ (f f' : FifoState) (os : List OrderState),
    runSubmits f reqs = some (f', os) →
    f'.current_sequence = f.current_sequence + reqs.length ∧
    os.length = reqs.length ∧
    ∀ i (hi : i < os.length), (os.get ⟨i, hi⟩).sequence = f.current_sequence + i + 1 := by
  induction reqs with
  | nil =>
    intro f f' os h
    simp only [runSubmits, Option.some.injEq, Prod.mk.injEq] at h
    obtain ⟨rfl, rfl⟩ := h
    refine ⟨rfl, rfl, ?_⟩
    intro i hi
    exact absurd hi (by simp)
  | cons r rs ih =>
    intro f f' os h
    simp only [runSubmits] at h
    cases hs : submit_order f r.pool r.user r.pool_id r.amount_in r.min_amount_out
        r.is_base_input r.now with
    | error e => simp only [hs] at h; cases h
    | ok out =>
      simp only [hs] at h
      cases hr : runSubmits out.fifo rs with
      | none => simp only [hr] at h; cases h
      | some p =>
        obtain ⟨f₁, os₁⟩ := p
        simp only [hr, Option.some.injEq, Prod.mk.injEq] at h
        obtain ⟨rfl, rfl⟩ := h
        obtain ⟨hfifo, hkey, horder, hevent⟩ := submit_order_ok_spec hs
        obtain ⟨ih1, ih2, ih3⟩ := ih out.fifo f₁ os₁ hr
        have hseq : out.fifo.current_sequence = f.current_sequence + 1 := by
          rw [hfifo]
        refine ⟨?_, ?_, ?_⟩
        · rw [ih1, hseq, List.length_cons]
          omega
        · simp [ih2]
        · intro i hi
          cases i with
          | zero =>
            simp only [List.get]
            rw [horder]
          | succ j =>
            simp only [List.get]
            have hj : j < os₁.length := by
              simp only [List.length_cons] at hi
              omega
            have := ih3 j hj
            rw [this, hseq]
            omega

/-- An active pool registration used in concrete evaluations. -/
def demoPool : CpSwapPoolRegistry :=
  { pool_id := 2, token_0 := 0, token_1 := 0, continuum_authority := 9,
    created_at := 0, is_active := true }

/-- A pending order used in concrete evaluations. -/
def demoOrder : OrderState :=
  { sequence := 1, user := 5, pool_id := 2, amount_in := 1000, min_amount_out := 900,
    is_base_input := true, status := .Pending, submitted_at := 3, executed_at := none }

/-- The result of the first `submit_order` call after `initFifoState`:
the order account is keyed by the pre-increment counter value 0, while
its `sequence` field holds the post-increment value 1. -/
def c1Out : SubmitOut :=
  { fifo := { current_sequence := 1, admin := 7, emergency_pause := false },
    key := (5, 0),
    order := { sequence := 1, user := 5, pool_id := 2, amount_in := 1000,
               min_amount_out := 900, is_base_input := true, status := .Pending,
               submitted_at := 11, executed_at := none },
    event := { sequence := 1, user := 5, pool_id := 2, amount_in := 1000,
               is_base_input := true } }

/-- C1: a successful durable submission creates a `Pending` order with
`submitted_at = now`, `finalized_at` unset and `sequence` equal to the
incremented counter — but, contrary to the claim, the order account is
stored under the key `(owner, pre-increment counter)`, whose sequence
component differs (by one) from the order's `sequence` field.  Evaluated
here on the first submission after initialization: the order is stored
under `(5, 0)` while its `sequence` field is `1`. -/
theorem C1_submit_key_field_mismatch :
    submit_order (initFifoState 7) demoPool 5 2 1000 900 true 11 = .ok c1Out ∧
    c1Out.key.2 ≠ c1Out.order.sequence ∧
    c1Out.key.2 + 1 = c1Out.order.sequence ∧
    c1Out.order.status = .Pending ∧
    c1Out.order.submitted_at = 11 ∧
    c1Out.order.executed_at = none ∧
    c1Out.fifo.current_sequence = 1 := by
  refine ⟨by decide, by decide, by decide, by decide, by decide, by decide, by decide⟩

/-- C2: an execution attempt whose asserted `expected_sequence` differs
from the stored order's `sequence` field fails with `InvalidSequence`
and leaves the order record unchanged. -/
theorem C2_invalid_sequence_rejected (order : OrderState) (expected : Nat)
    (pool : CpSwapPoolRegistry) (executor uso udo : Pubkey)
    (bal : Nat) (cpi : Option Nat) (now : Int)
    (h : expected ≠ order.sequence) :
    execute_order order expected pool executor uso udo bal cpi now =
      .error (.continuum .InvalidSequence) ∧
    orderAfterExecute order expected pool executor uso udo bal cpi now = order := by
  have hne : ¬ order.sequence = expected := fun hc => h hc.symm
  refine ⟨?_, ?_⟩
  · unfold execute_order
    rw [if_neg hne]
  · unfold orderAfterExecute execute_order
    rw [if_neg hne]

/-- Witness for C2 at a concrete input: asserting sequence 2 against the
stored order of sequence 1. -/
theorem C2_invalid_sequence_rejected_witness :
    execute_order demoOrder 2 demoPool 9 5 5 0 (some 100) 6 =
      .error (.continuum .InvalidSequence) ∧
    orderAfterExecute demoOrder 2 demoPool 9 5 5 0 (some 100) 6 = demoOrder :=
  C2_invalid_sequence_rejected demoOrder 2 demoPool 9 5 5 0 (some 100) 6 (by decide)

/-- C3: starting from a freshly initialized sequencer state
(`current_sequence = 0`), any run of `N` successful submissions ends with
`current_sequence = N` and the `i`-th created order (1-based) carries
`sequence = i`; every successful submission advances the counter by
exactly one; and no instruction of the program ever decreases the
counter. -/
theorem C3_counter_sequencing (admin : Pubkey) (reqs : List SubmitReq)
    (f : FifoState) (os : List OrderState)
    (h : runSubmits (initFifoState admin) reqs = some (f, os)) :
    (f.current_sequence = reqs.length ∧
     os.length = reqs.length ∧
     ∀ i (hi : i < os.length), (os.get ⟨i, hi⟩).sequence = i + 1) ∧
    (∀ (fifo : FifoState) (pool : CpSwapPoolRegistry) (user pid a m : Nat) (b : Bool)
        (now : Int) (out : SubmitOut),
        submit_order fifo pool user pid a m b now = .ok out →
        out.fifo.current_sequence = fifo.current_sequence + 1) ∧
    (∀ (fifo : FifoState) (op : Op) (f' : FifoState),
        applyOp fifo op = .ok f' → fifo.current_sequence ≤ f'.current_sequence) := by
  obtain ⟨h1, h2, h3⟩ := runSubmits_spec reqs (initFifoState admin) f os h
  refine ⟨⟨?_, h2, ?_⟩, ?_, ?_⟩
  · simpa [initFifoState] using h1
  · intro i hi
    simpa [initFifoState] using h3 i hi
  · intro fifo pool user pid a m b now out hs
    rw [(submit_order_ok_spec hs).1]
  · intro fifo op f' hop
    exact applyOp_seq_mono hop

/-- The two requests of the concrete C3 run. -/
def c3Reqs : List SubmitReq :=
  [{ pool := demoPool, user := 5, pool_id := 2, amount_in := 1000,
     min_amount_out := 900, is_base_input := true, now := 11 },
   { pool := demoPool, user := 6, pool_id := 2, amount_in := 50,
     min_amount_out := 40, is_base_input := false, now := 12 }]

/-- Final sequencer state of the concrete C3 run. -/
def c3F : FifoState := { current_sequence := 2, admin := 7, emergency_pause := false }

/-- Orders created by the concrete C3 run. -/
def c3Os : List OrderState :=
  [{ sequence := 1, user := 5, pool_id := 2, amount_in := 1000, min_amount_out := 900,
     is_base_input := true, status := .Pending, submitted_at := 11, executed_at := none },
   { sequence := 2, user := 6, pool_id := 2, amount_in := 50, min_amount_out := 40,
     is_base_input := false, status := .Pending, submitted_at := 12, executed_at := none }]

/-- Witness for C3 on a concrete two-submission run. -/
theorem C3_counter_sequencing_witness :
    c3F.current_sequence = 2 ∧ c3Os.length = 2 ∧
    (c3Os.get ⟨0, by decide⟩).sequence = 1 ∧
    (c3Os.get ⟨1, by decide⟩).sequence = 2 := by
  have h := C3_counter_sequencing 7 c3Reqs c3F c3Os (by decide)
  exact ⟨h.1.1, h.1.2.1, h.1.2.2 0 (by decide), h.1.2.2 1 (by decide)⟩

/-- LE64 decoding inverts LE64 encoding on `u64` values: the eight bytes
determine the encoded number exactly. -/
theorem leDecode_le64 (n : Nat) (h : n < U64_LIMIT) : leDecode (le64 n) = n := by
  have h' : n < 18446744073709551616 := by
    simpa [U64_LIMIT] using h
  simp only [le64, leDecode, List.foldr]
  norm_num
  omega

/-- C4: the forwarded-call payload of `execute_order` and of
`swap_immediate` is byte-identical across the two sites and byte-exact:
a fixed 8-byte opcode selected exclusively by `is_base_input`, followed
by two LE64-encoded 64-bit integers — `amount_in ++ min_amount_out`
under the base-input opcode, `min_amount_out ++ amount_in` under the
base-output opcode — and the two opcodes are distinct constants. -/
theorem C4_payload_byte_exact (b : Bool) (a m : Nat)
    (ha : a < U64_LIMIT) (hm : m < U64_LIMIT) :
    execute_order_ix_data b a m = swap_immediate_ix_data b a m ∧
    execute_order_ix_data b a m =
      (if b then [143, 190, 90, 218, 196, 30, 51, 222]
       else [55, 217, 98, 86, 163, 74, 180, 173]) ++
        le64 (if b then a else m) ++ le64 (if b then m else a) ∧
    (execute_order_ix_data b a m).length = 24 ∧
    (execute_order_ix_data b a m).take 8 =
      (if b then [143, 190, 90, 218, 196, 30, 51, 222]
       else [55, 217, 98, 86, 163, 74, 180, 173]) ∧
    leDecode (((execute_order_ix_data b a m).drop 8).take 8) = (if b then a else m) ∧
    leDecode ((execute_order_ix_data b a m).drop 16) = (if b then m else a) ∧
    ([143, 190, 90, 218, 196, 30, 51, 222] : List Nat) ≠
      [55, 217, 98, 86, 163, 74, 180, 173] := by
  cases b with
  | false =>
    refine ⟨rfl, rfl, rfl, rfl, ?_, ?_, by decide⟩
    · simpa [execute_order_ix_data, le64] using leDecode_le64 m hm
    · simpa [execute_order_ix_data, le64] using leDecode_le64 a ha
  | true =>
    refine ⟨rfl, rfl, rfl, rfl, ?_, ?_, by decide⟩
    · simpa [execute_order_ix_data, le64] using leDecode_le64 a ha
    · simpa [execute_order_ix_data, le64] using leDecode_le64 m hm

/-- Witness for C4 at concrete amounts 1000 / 900, base-input. -/
theorem C4_payload_byte_exact_witness :
    execute_order_ix_data true 1000 900 = swap_immediate_ix_data true 1000 900 ∧
    execute_order_ix_data true 1000 900 =
      (if true then [143, 190, 90, 218, 196, 30, 51, 222]
       else [55, 217, 98, 86, 163, 74, 180, 173]) ++
        le64 (if true then 1000 else 900) ++ le64 (if true then 900 else 1000) ∧
    (execute_order_ix_data true 1000 900).length = 24 ∧
    (execute_order_ix_data true 1000 900).take 8 =
      (if true then [143, 190, 90, 218, 196, 30, 51, 222]
       else [55, 217, 98, 86, 163, 74, 180, 173]) ∧
    leDecode (((execute_order_ix_data true 1000 900).drop 8).take 8) =
      (if true then 1000 else 900) ∧
    leDecode ((execute_order_ix_data true 1000 900).drop 16) =
      (if true then 900 else 1000) ∧
    ([143, 190, 90, 218, 196, 30, 51, 222] : List Nat) ≠
      [55, 217, 98, 86, 163, 74, 180, 173] :=
  C4_payload_byte_exact true 1000 900 (by decide) (by decide)

/-- An `execute_order` call succeeds exactly when the asserted sequence
matches the stored order's field, the order is `Pending`, both token
accounts belong to the order owner, and the forwarded call succeeds
without balance underflow; the successful result is fully determined. -/
theorem execute_order_ok_iff {order : OrderState} {expected : Nat}
    {pool : CpSwapPoolRegistry} {executor uso udo : Pubkey} {bal : Nat}
    {cpi : Option Nat} {now : Int} {out : OrderState × Nat × OrderExecuted} :
    execute_order order expected pool executor uso udo bal cpi now = .ok out ↔
    (order.sequence = expected ∧ order.status = .Pending ∧ uso = order.user ∧
     udo = order.user ∧ ∃ post, cpi = some post ∧ bal ≤ post ∧
       out = ({ order with status := .Executed, executed_at := some now }, post - bal,
              { sequence := order.sequence, user := order.user,
                amount_out := post - bal, executor := executor })) := by
  unfold execute_order
  split_ifs with h1 h2 h3 h4
  · cases cpi with
    | none => simp [h1, h2, h3, h4]
    | some post =>
      by_cases h5 : post < bal
      · simp [h1, h2, h3, h4, if_pos h5, Nat.not_le.mpr h5]
      · simp [h1, h2, h3, h4, if_neg h5, Nat.not_lt.mp h5, eq_comm]
  · simp [h1, h2, h3, h4]
  · simp [h1, h2, h3]
  · simp [h1, h2]
  · simp [h1]

/-- A `cancel_order` call succeeds exactly when the order is `Pending`
and the signer is the order owner; the successful result is fully
determined. -/
theorem cancel_order_ok_iff {order : OrderState} {user : Pubkey} {now : Int}
    {out : OrderState × OrderCancelled} :
    cancel_order order user now = .ok out ↔
    (order.status = .Pending ∧ order.user = user ∧
     out = ({ order with status := .Cancelled, executed_at := some now },
            { sequence := order.sequence, user := user })) := by
  unfold cancel_order
  split_ifs with h1 h2
  · simp [h1, h2, eq_comm]
  · simp [h1, h2]
  · simp [h1]

/-- C5: an order's status changes only from `Pending`, and only to
`Executed` (by execution) or `Cancelled` (by cancellation) — both in the
allowed target set `{Executed, Cancelled, Failed}`; a non-`Pending`
(terminal) status is never changed by any subsequent execution or
cancellation; and a second execution attempt on an already-`Executed`
order, asserting its own sequence, fails with `InvalidOrderStatus`. -/
theorem C5_status_machine (order : OrderState) (expected : Nat)
    (pool : CpSwapPoolRegistry) (executor uso udo : Pubkey) (bal : Nat)
    (cpi : Option Nat) (now : Int) (caller : Pubkey) (now' : Int) :
    (∀ o' amt ev, execute_order order expected pool executor uso udo bal cpi now =
        .ok (o', amt, ev) → order.status = .Pending ∧ o'.status = .Executed) ∧
    (∀ o' ev, cancel_order order caller now' = .ok (o', ev) →
        order.status = .Pending ∧ o'.status = .Cancelled) ∧
    (order.status ≠ .Pending →
      orderAfterExecute order expected pool executor uso udo bal cpi now = order ∧
      orderAfterCancel order caller now' = order) ∧
    (order.status = .Executed →
      execute_order order order.sequence pool executor uso udo bal cpi now =
        .error (.continuum .InvalidOrderStatus)) := by
  refine ⟨?_, ?_, ?_, ?_⟩
  · intro o' amt ev h
    obtain ⟨-, hp, -, -, post, -, -, hout⟩ := execute_order_ok_iff.mp h
    refine ⟨hp, ?_⟩
    have : o' = { order with status := .Executed, executed_at := some now } := by
      have := congrArg Prod.fst hout
      simpa using this
    rw [this]
  · intro o' ev h
    obtain ⟨hp, -, hout⟩ := cancel_order_ok_iff.mp h
    refine ⟨hp, ?_⟩
    have : o' = { order with status := .Cancelled, executed_at := some now' } := by
      have := congrArg Prod.fst hout
      simpa using this
    rw [this]
  · intro hnp
    constructor
    · unfold orderAfterExecute
      cases hx : execute_order order expected pool executor uso udo bal cpi now with
      | ok out =>
        exact absurd (execute_order_ok_iff.mp hx).2.1 hnp
      | error e => rfl
    · unfold orderAfterCancel
      cases hx : cancel_order order caller now' with
      | ok out =>
        exact absurd (cancel_order_ok_iff.mp hx).1 hnp
      | error e => rfl
  · intro hex
    unfold execute_order
    rw [if_pos rfl, if_neg (by simp [hex])]

/-- The demo order after a successful execution. -/
def executedOrder : OrderState :=
  { demoOrder with status := .Executed, executed_at := some 6 }

/-- The demo order after a successful cancellation at time 9. -/
def cancelledOrder : OrderState :=
  { demoOrder with status := .Cancelled, executed_at := some 9 }

/-- Witness for C5: a pending order cancels to `Cancelled`; an
already-`Executed` order is untouched by further execution and
cancellation, and re-executing it at its own sequence fails with
`InvalidOrderStatus`. -/
theorem C5_status_machine_witness :
    (demoOrder.status = .Pending ∧ cancelledOrder.status = .Cancelled) ∧
    orderAfterExecute executedOrder 1 demoPool 9 5 5 0 (some 100) 6 = executedOrder ∧
    orderAfterCancel executedOrder 5 9 = executedOrder ∧
    execute_order executedOrder executedOrder.sequence demoPool 9 5 5 0 (some 100) 6 =
      .error (.continuum .InvalidOrderStatus) := by
  have hP := C5_status_machine demoOrder 1 demoPool 9 5 5 0 (some 100) 6 5 9
  have hE := C5_status_machine executedOrder 1 demoPool 9 5 5 0 (some 100) 6 5 9
  refine ⟨?_, (hE.2.2.1 (by decide)).1, (hE.2.2.1 (by decide)).2, hE.2.2.2 (by decide)⟩
  exact hP.2.1 cancelledOrder { sequence := 1, user := 5 } (by decide)

/-- C6: the claim says every successful execution records the measured
destination-balance delta, never a placeholder.  The wired
`execute_order` does exactly that, but `execute_order_simple` emits the
hard-coded placeholder `amount_out = 0`.  Evaluated on the same scenario
(destination balance 0 before the forwarded call, 100 after): the simple
variant reports 0 where the measured delta — which `execute_order`
reports — is 100. -/
theorem C6_placeholder_amount_out :
    execute_order_simple 1 1000 900 true 5 9 5 5 0 (some 100) =
      .ok (execute_order_ix_data true 1000 900,
           { sequence := 1, user := 5, amount_out := 0, executor := 9 }) ∧
    execute_order demoOrder 1 demoPool 9 5 5 0 (some 100) 6 =
      .ok (executedOrder, 100,
           { sequence := 1, user := 5, amount_out := 100, executor := 9 }) ∧
    (0 : Nat) ≠ 100 - 0 := by
  exact ⟨by decide, by decide, by decide⟩

/-- C7 counterexample: a non-owner's cancellation does not always fail
with `Unauthorized`.  Concretely, caller 1 cancelling the
already-`Executed` order owned by 5 fails with `InvalidOrderStatus`,
because the status constraint is written (and therefore checked) before
the ownership constraint. -/
theorem C7_nonowner_cancel_counterexample :
    executedOrder.user ≠ 1 ∧
    cancel_order executedOrder 1 9 = .error (.continuum .InvalidOrderStatus) ∧
    cancel_order executedOrder 1 9 ≠ .error (.continuum .Unauthorized) := by
  exact ⟨by decide, by decide, by decide⟩

/-- C7 (amended): cancellation succeeds exactly for the owner of a
`Pending` order, setting `status = Cancelled` and the finalization
timestamp to `now` and emitting `OrderCancelled{sequence, owner}`;
cancellation of a non-`Pending` order fails with `InvalidOrderStatus`
(this check comes first); cancellation of a `Pending` order by a
non-owner fails with `Unauthorized`; every failure leaves the order
unchanged. -/
theorem C7_cancel_semantics (order : OrderState) (caller : Pubkey) (now : Int) :
    (order.status = .Pending → order.user = caller →
      cancel_order order caller now =
        .ok ({ order with status := .Cancelled, executed_at := some now },
             { sequence := order.sequence, user := caller })) ∧
    (order.status ≠ .Pending →
      cancel_order order caller now = .error (.continuum .InvalidOrderStatus)) ∧
    (order.status = .Pending → order.user ≠ caller →
      cancel_order order caller now = .error (.continuum .Unauthorized)) ∧
    (∀ e, cancel_order order caller now = .error e →
      orderAfterCancel order caller now = order) := by
  refine ⟨?_, ?_, ?_, ?_⟩
  · intro hp ho
    unfold cancel_order
    rw [if_pos hp, if_pos ho]
  · intro hnp
    unfold cancel_order
    rw [if_neg hnp]
  · intro hp hno
    unfold cancel_order
    rw [if_pos hp, if_neg hno]
  · intro e he
    unfold orderAfterCancel
    rw [he]

/-- Witness for C7 on concrete orders: owner cancel of a pending order
succeeds; cancel of an executed order fails `InvalidOrderStatus`;
non-owner cancel of a pending order fails `Unauthorized`; a failed
cancel leaves the order unchanged. -/
theorem C7_cancel_semantics_witness :
    cancel_order demoOrder 5 9 =
      .ok ({ demoOrder with status := .Cancelled, executed_at := some 9 },
           { sequence := demoOrder.sequence, user := 5 }) ∧
    cancel_order executedOrder 5 9 = .error (.continuum .InvalidOrderStatus) ∧
    cancel_order demoOrder 1 9 = .error (.continuum .Unauthorized) ∧
    orderAfterCancel executedOrder 5 9 = executedOrder := by
  have hp := C7_cancel_semantics demoOrder 5 9
  have he := C7_cancel_semantics executedOrder 5 9
  have hn := C7_cancel_semantics demoOrder 1 9
  refine ⟨hp.1 (by decide) (by decide), he.2.1 (by decide), hn.2.2.1 (by decide) (by decide), ?_⟩
  exact he.2.2.2 (.continuum .InvalidOrderStatus) (he.2.1 (by decide))

/-- An inactive pool registration. -/
def inactivePool : CpSwapPoolRegistry :=
  { pool_id := 2, token_0 := 0, token_1 := 0, continuum_authority := 9,
    created_at := 0, is_active := false }

/-- C8 counterexample: an execution attempt against an inactive pool
registration, by an arbitrary executor (here 77), succeeds — the claim
says it must fail.  `ExecuteOrder` carries no `is_active` constraint on
`pool_registry` and no allow-list check on `executor`. -/
theorem C8_inactive_pool_counterexample :
    inactivePool.is_active = false ∧
    execute_order demoOrder 1 inactivePool 77 5 5 0 (some 100) 6 =
      .ok (executedOrder, 100,
           { sequence := 1, user := 5, amount_out := 100, executor := 77 }) := by
  exact ⟨by decide, by decide⟩

/-- C8 (amended): execution succeeds exactly when the asserted sequence
matches, the order is `Pending`, the two token accounts belong to the
order owner, and the forwarded call succeeds without balance underflow;
success is entirely independent of the pool registration record
(in particular of its `is_active` flag) and of the executor identity —
the only executor requirement is the host-level signature, with no
allow-list membership check. -/
theorem C8_execute_preconditions (order : OrderState) (expected : Nat)
    (pool pool' : CpSwapPoolRegistry) (executor executor' uso udo : Pubkey)
    (bal : Nat) (cpi : Option Nat) (now : Int) :
    (isOk (execute_order order expected pool executor uso udo bal cpi now) = true ↔
      (order.sequence = expected ∧ order.status = .Pending ∧ uso = order.user ∧
       udo = order.user ∧ ∃ post, cpi = some post ∧ bal ≤ post)) ∧
    isOk (execute_order order expected pool executor uso udo bal cpi now) =
      isOk (execute_order order expected pool' executor' uso udo bal cpi now) := by
  have hiff : ∀ (p : CpSwapPoolRegistry) (ex : Pubkey),
      isOk (execute_order order expected p ex uso udo bal cpi now) = true ↔
      (order.sequence = expected ∧ order.status = .Pending ∧ uso = order.user ∧
       udo = order.user ∧ ∃ post, cpi = some post ∧ bal ≤ post) := by
    intro p ex
    constructor
    · intro h
      cases hx : execute_order order expected p ex uso udo bal cpi now with
      | ok out =>
        obtain ⟨h1, h2, h3, h4, post, h5, h6, -⟩ := execute_order_ok_iff.mp hx
        exact ⟨h1, h2, h3, h4, post, h5, h6⟩
      | error e =>
        rw [hx] at h
        cases h
    · rintro ⟨h1, h2, h3, h4, post, h5, h6⟩
      have hok : execute_order order expected p ex uso udo bal cpi now =
          .ok ({ order with status := .Executed, executed_at := some now }, post - bal,
               { sequence := order.sequence, user := order.user,
                 amount_out := post - bal, executor := ex }) :=
        execute_order_ok_iff.mpr ⟨h1, h2, h3, h4, post, h5, h6, rfl⟩
      rw [hok]
      rfl
  refine ⟨hiff pool executor, ?_⟩
  by_cases hc : order.sequence = expected ∧ order.status = .Pending ∧ uso = order.user ∧
      udo = order.user ∧ ∃ post, cpi = some post ∧ bal ≤ post
  · rw [(hiff pool executor).mpr hc, (hiff pool' executor').mpr hc]
  · have e1 := (hiff pool executor).not.mpr hc
    have e2 := (hiff pool' executor').not.mpr hc
    rw [Bool.not_eq_true] at e1 e2
    rw [e1, e2]

/-- Witness for C8: a concrete execution against the inactive pool by
executor 77 succeeds, and its success agrees with the same execution
against the active pool by executor 9. -/
theorem C8_execute_preconditions_witness :
    isOk (execute_order demoOrder 1 inactivePool 77 5 5 0 (some 100) 6) = true ∧
    isOk (execute_order demoOrder 1 inactivePool 77 5 5 0 (some 100) 6) =
      isOk (execute_order demoOrder 1 demoPool 9 5 5 0 (some 100) 6) := by
  have h := C8_execute_preconditions demoOrder 1 inactivePool demoPool 77 9 5 5 0 (some 100) 6
  exact ⟨h.1.mpr ⟨rfl, rfl, rfl, rfl, 100, rfl, by decide⟩, h.2⟩

/-- Sequencer state with an empty executor allow-list. -/
def relayerState0 : RelayerFifoState :=
  { current_sequence := 0, admin := 7, emergency_pause := false,
    authorized_relayers := [] }

/-- Sequencer state whose allow-list holds exactly relayer 4. -/
def relayerState1 : RelayerFifoState :=
  { current_sequence := 0, admin := 7, emergency_pause := false,
    authorized_relayers := [4] }

/-- C9: `add_relayer` fails when the identity is already present;
`remove_relayer` is idempotent and succeeds without error (and without
change) when the identity is absent; and from an empty allow-list,
`add_relayer(R)` followed by `remove_relayer(R)` leaves the allow-list
empty. -/
theorem C9_relayer_set_ops (st : RelayerFifoState) (r : Pubkey) :
    (r ∈ st.authorized_relayers →
      add_relayer st st.admin r = .error (.continuum .Unauthorized)) ∧
    (r ∉ st.authorized_relayers → remove_relayer st st.admin r = .ok st) ∧
    (∀ st', remove_relayer st st.admin r = .ok st' →
      remove_relayer st' st'.admin r = .ok st') ∧
    (st.authorized_relayers = [] →
      ∀ st', add_relayer st st.admin r = .ok st' →
        ∃ st'', remove_relayer st' st'.admin r = .ok st'' ∧
          st''.authorized_relayers = []) := by
  refine ⟨?_, ?_, ?_, ?_⟩
  · intro hmem
    unfold add_relayer
    rw [if_pos rfl, if_pos hmem]
  · intro hnm
    unfold remove_relayer
    rw [if_pos rfl]
    have hf : st.authorized_relayers.filter (fun a => a ≠ r) = st.authorized_relayers := by
      rw [List.filter_eq_self]
      intro a ha
      simp only [decide_eq_true_eq]
      intro hc
      exact hnm (hc ▸ ha)
    rw [hf]
  · intro st' h
    unfold remove_relayer at h
    rw [if_pos rfl] at h
    cases h
    unfold remove_relayer
    rw [if_pos rfl]
    have hf : (st.authorized_relayers.filter (fun a => a ≠ r)).filter (fun a => a ≠ r) =
        st.authorized_relayers.filter (fun a => a ≠ r) := by
      rw [List.filter_eq_self]
      intro a ha
      exact (List.mem_filter.mp ha).2
    simp only [hf]
  · intro hemp st' h
    unfold add_relayer at h
    rw [if_pos rfl, hemp] at h
    rw [if_neg (List.not_mem_nil r)] at h
    cases h
    refine ⟨{ st with authorized_relayers := [] }, ?_, rfl⟩
    unfold remove_relayer
    rw [if_pos rfl]
    simp

/-- Witness for C9 at a concrete allow-list: adding 4 twice fails the
second time; removing 4 from an empty list is a no-op success; the
add-then-remove round trip from the empty list ends empty. -/
theorem C9_relayer_set_ops_witness :
    add_relayer relayerState1 relayerState1.admin 4 =
      .error (.continuum .Unauthorized) ∧
    remove_relayer relayerState0 relayerState0.admin 4 = .ok relayerState0 ∧
    add_relayer relayerState0 relayerState0.admin 4 = .ok relayerState1 ∧
    remove_relayer relayerState1 relayerState1.admin 4 =
      .ok { relayerState1 with authorized_relayers := [] } := by
  have h1 := C9_relayer_set_ops relayerState1 4
  have h0 := C9_relayer_set_ops relayerState0 4
  exact ⟨h1.1 (by decide), h0.2.1 (by decide), by decide, by decide⟩

/-- C10: `swap_immediate` imposes no authorization precondition.  Its
accounts struct contains no signer (the embedding accordingly receives
no caller identity at all), it never fails with `Unauthorized`, and it
succeeds — forwarding the swap under the derived pool authority —
whenever the pause flag is clear, the pool registry entry is active,
the counter does not overflow, and the forwarded call succeeds. -/
theorem C10_swap_immediate_no_auth (fifo : FifoState) (pool : CpSwapPoolRegistry)
    (pool_id : Pubkey) (a m : Nat) (b cpi_ok : Bool) :
    swap_immediate fifo pool pool_id a m b cpi_ok ≠
      .error (.continuum .Unauthorized) ∧
    (fifo.emergency_pause = false → pool.is_active = true → cpi_ok = true →
      fifo.current_sequence + 1 < U64_LIMIT →
      swap_immediate fifo pool pool_id a m b cpi_ok =
        .ok ({ fifo with current_sequence := fifo.current_sequence + 1 },
             swap_immediate_ix_data b a m,
             { sequence := fifo.current_sequence + 1, pool_id := pool_id,
               amount_in := a, is_base_input := b })) := by
  constructor
  · unfold swap_immediate
    split_ifs <;> simp
  · intro h1 h2 h3 h4
    simp [swap_immediate, h1, h2, h3, h4]

/-- Witness for C10: a concrete immediate swap with pause clear and an
active pool succeeds, with no caller identity anywhere in sight. -/
theorem C10_swap_immediate_no_auth_witness :
    swap_immediate (initFifoState 7) demoPool 2 1000 900 true true ≠
      .error (.continuum .Unauthorized) ∧
    swap_immediate (initFifoState 7) demoPool 2 1000 900 true true =
      .ok ({ initFifoState 7 with current_sequence := (initFifoState 7).current_sequence + 1 },
           swap_immediate_ix_data true 1000 900,
           { sequence := (initFifoState 7).current_sequence + 1, pool_id := 2,
             amount_in := 1000, is_base_input := true }) := by
  have h := C10_swap_immediate_no_auth (initFifoState 7) demoPool 2 1000 900 true true
  exact ⟨h.1, h.2 rfl rfl rfl (by decide)⟩

end Continuum
